import Mathlib

/-!
A shallow embedding of the drift-liquidator bot (src/main.rs): funding
settlement, margin-ratio evaluation, the liquidation trigger and account-list
assembly, bootstrap classification, and the per-account cycle task with its
error handling.  Machine integers are embedded as `Nat`/`Int` with explicit
128-bit range checks.  Arithmetic helpers of the external venue library
(clearing-house math) whose code is not in this repository are modelled from
the spec and carry a doc comment saying so.
-/

set_option maxRecDepth 8192

namespace Drift

/-- Ledger addresses are opaque identities; modelled as naturals. -/
abbrev Pubkey := Nat

/-- Largest value of Rust's `u128`. -/
def U128_MAX : Nat := 2 ^ 128 - 1

/-- Smallest value of Rust's `i128`. -/
def I128_MIN : Int := -(2 ^ 127)

/-- Largest value of Rust's `i128`. -/
def I128_MAX : Int := 2 ^ 127 - 1

/-- Rust `i128::checked_add`. -/
def checkedAddI128 (a b : Int) : Option Int :=
  if I128_MIN ≤ a + b ∧ a + b ≤ I128_MAX then some (a + b) else none

/-- Rust `i128::checked_sub`. -/
def checkedSubI128 (a b : Int) : Option Int :=
  if I128_MIN ≤ a - b ∧ a - b ≤ I128_MAX then some (a - b) else none

/-- Rust `i128::checked_div` (truncating toward zero; `none` on division by
zero or on `I128_MIN / -1`). -/
def checkedDivI128 (a b : Int) : Option Int :=
  if b = 0 ∨ (a = I128_MIN ∧ b = -1) then none else some (Int.tdiv a b)

/-- Rust `u128::checked_add`. -/
def checkedAddU128 (a b : Nat) : Option Nat :=
  if a + b ≤ U128_MAX then some (a + b) else none

/-- Rust `u128::checked_mul`. -/
def checkedMulU128 (a b : Nat) : Option Nat :=
  if a * b ≤ U128_MAX then some (a * b) else none

/-- Rust `u128::checked_div`. -/
def checkedDivU128 (a b : Nat) : Option Nat :=
  if b = 0 then none else some (a / b)

/-- Modelled from the spec: the venue library's fixed ratio between internal
funding precision and collateral precision ("convert the accumulated funding
total from internal precision to collateral precision"); the exact positive
value does not matter to any claim. -/
def AMM_TO_QUOTE_PRECISION_RATIO_I128 : Int := 10 ^ 7

/-- Modelled from the spec: the "margin-precision-constant" of the margin
ratio formula; the exact positive value does not matter to any claim. -/
def MARGIN_PRECISION : Nat := 10 ^ 4

/-- Modelled from the spec: the fixed precision ratio scaling a funding
payment ("scaled by a fixed precision ratio"). -/
def FUNDING_PAYMENT_PRECISION : Nat := 10 ^ 4

/-- Modelled from the spec: the scale dividing notional value ("each
position's notional base-asset value at current market price"). -/
def PRICE_PRECISION : Nat := 10 ^ 10

/-- Errors of a per-account evaluation.  `mathOverflow` is the venue
library's recoverable `ClearingHouseResult` error (propagated with `?` in the
source); `panicUnwrap` is a Rust panic from `.unwrap()` on a failed checked
operation; `panicIndex` is a Rust panic from an out-of-bounds array index. -/
inductive RErr where
  | mathOverflow
  | panicUnwrap
  | panicIndex
deriving DecidableEq

/-- A per-market position of the Position Set (drift `MarketPosition`):
market index, signed base-asset exposure, cost basis, and the funding
checkpoint (last-seen cumulative rate and timestamp). -/
structure MarketPosition where
  market_index : Nat
  base_asset_amount : Int
  quote_asset_amount : Nat
  last_cumulative_funding_rate : Int
  last_funding_rate_ts : Int
deriving DecidableEq

/-- The per-market pricing/funding block (drift `AMM`): both cumulative
funding rates, the last funding timestamp, the oracle identity, and a
`price` field standing for the pricing state (Modelled from the spec's
"notional base-asset value at current market price"; the claims do not
depend on the pricing formula's detail). -/
structure AMM where
  oracle : Pubkey
  cumulative_funding_rate_long : Int
  cumulative_funding_rate_short : Int
  last_funding_rate_ts : Int
  price : Nat
deriving DecidableEq

/-- A per-market record of the Market Table; only its AMM block is read. -/
structure Market where
  amm : AMM
deriving DecidableEq

/-- The Market Table (drift `Markets`): ordered collection of markets. -/
structure Markets where
  markets : List Market
deriving DecidableEq

/-- An Account Principal (drift `User`): authority, collateral balance, and
the address of its Position Set. -/
structure User where
  authority : Pubkey
  collateral : Nat
  positions : Pubkey
deriving DecidableEq

/-- A Position Set (drift `UserPositions`). -/
structure UserPositions where
  positions : List MarketPosition
deriving DecidableEq

/-- The Venue Parameters record (drift `State`): the partial margin-ratio
threshold and the auxiliary sub-account identities named by the liquidation
instruction. -/
structure State where
  margin_ratio_partial : Nat
  collateral_vault : Pubkey
  collateral_vault_authority : Pubkey
  insurance_vault : Pubkey
  insurance_vault_authority : Pubkey
  markets : Pubkey
  trade_history : Pubkey
  liquidation_history : Pubkey
  funding_payment_history : Pubkey
deriving DecidableEq

/-- `&markets.markets[Markets::index_from_u64(i)]`: array indexing panics
when the index is out of range (`index_from_u64` is the identity embedding of
`u64` into `usize`). -/
def indexMarkets (mkts : Markets) (i : Nat) : Except RErr Market :=
  match mkts.markets.get? i with
  | some market => .ok market
  | none => .error .panicIndex

/-- The current cumulative funding rate for the side of a position: the long
rate when exposure is positive, the short rate otherwise. -/
def sideRate (p : MarketPosition) (market : Market) : Int :=
  if p.base_asset_amount > 0 then market.amm.cumulative_funding_rate_long
  else market.amm.cumulative_funding_rate_short

/-- Modelled from the spec: the venue library's `calculate_funding_payment`
(its code is not in this repository).  "Compute the funding payment owed for
the delta (a function of exposure size and rate delta, scaled by a fixed
precision ratio)"; it "signals an arithmetic-overflow error if the funding
delta ... exceeds the signed-128-bit-equivalent range".  The sign convention
(longs pay when the rate rises) does not matter to any claim. -/
def calculate_funding_payment (amm_rate : Int) (p : MarketPosition) : Except RErr Int :=
  match checkedSubI128 amm_rate p.last_cumulative_funding_rate with
  | none => .error .mathOverflow
  | some delta =>
    let magnitude : Nat := delta.natAbs * p.base_asset_amount.natAbs / FUNDING_PAYMENT_PRECISION
    if (magnitude : Int) ≤ I128_MAX then
      let deltaSign : Int := if delta > 0 then 1 else -1
      let paySign : Int := if p.base_asset_amount > 0 then -1 else 1
      .ok ((magnitude : Int) * paySign * deltaSign)
    else .error .mathOverflow

/-- Modelled from the spec: the venue library's
`calculate_updated_collateral` (its code is not in this repository).  The
collateral update is "a saturating/overflow-checked update": saturating at
zero below, overflow-checked above. -/
def calculate_updated_collateral (collateral : Nat) (pnl : Int) : Except RErr Nat :=
  if pnl < 0 ∧ collateral < pnl.natAbs then .ok 0
  else if 0 < pnl then
    if collateral + pnl.natAbs ≤ U128_MAX then .ok (collateral + pnl.natAbs)
    else .error .mathOverflow
  else .ok (collateral - pnl.natAbs)

/-- Modelled from the spec: the venue library's
`calculate_base_asset_value_and_pnl` (its code is not in this repository).
It returns the position's "notional base-asset value at current market
price" and its "signed unrealized P&L" relative to the cost basis; it reads
only the position and the market's AMM block, never the account's
collateral, which is all the claims rely on. -/
def calculate_base_asset_value_and_pnl (p : MarketPosition) (amm : AMM) :
    Except RErr (Nat × Int) :=
  if p.base_asset_amount = 0 then .ok (0, 0)
  else
    let value : Nat := p.base_asset_amount.natAbs * amm.price / PRICE_PRECISION
    if U128_MAX < value then .error .mathOverflow
    else
      let pnl : Int :=
        if 0 < p.base_asset_amount then (value : Int) - (p.quote_asset_amount : Int)
        else (p.quote_asset_amount : Int) - (value : Int)
      if I128_MIN ≤ pnl ∧ pnl ≤ I128_MAX then .ok (value, pnl)
      else .error .mathOverflow

/-- The position loop of `settle_funding_payment` (src/main.rs lines
144-170): skip flat positions; look the market up; when the side's current
cumulative rate differs from the stored checkpoint, compute the payment,
accumulate it with `checked_add(..).unwrap()`, and advance the checkpoint
(rate and timestamp) to the market's current values.  Returns the
accumulated funding total and the updated positions. -/
def settlePositions (mkts : Markets) :
    List MarketPosition → Int → Except RErr (Int × List MarketPosition)
  | [], acc => .ok (acc, [])
  | p :: rest, acc =>
    if p.base_asset_amount = 0 then
      match settlePositions mkts rest acc with
      | .ok (fp, ps) => .ok (fp, p :: ps)
      | .error e => .error e
    else
      match indexMarkets mkts p.market_index with
      | .error e => .error e
      | .ok market =>
        if sideRate p market = p.last_cumulative_funding_rate then
          match settlePositions mkts rest acc with
          | .ok (fp, ps) => .ok (fp, p :: ps)
          | .error e => .error e
        else
          match calculate_funding_payment (sideRate p market) p with
          | .error e => .error e
          | .ok pay =>
            match checkedAddI128 acc pay with
            | none => .error .panicUnwrap
            | some acc2 =>
              match settlePositions mkts rest acc2 with
              | .ok (fp, ps) =>
                .ok (fp, { p with
                            last_cumulative_funding_rate := sideRate p market,
                            last_funding_rate_ts := market.amm.last_funding_rate_ts } :: ps)
              | .error e => .error e

/-- `settle_funding_payment` (src/main.rs lines 139-179): run the position
loop from a zero accumulator, convert the funding total to collateral
precision with `checked_div(..).unwrap()`, and apply it to the collateral. -/
def settle_funding_payment (user : User) (ups : UserPositions) (mkts : Markets) :
    Except RErr (User × UserPositions) :=
  match settlePositions mkts ups.positions 0 with
  | .error e => .error e
  | .ok (fp, ps) =>
    match checkedDivI128 fp AMM_TO_QUOTE_PRECISION_RATIO_I128 with
    | none => .error .panicUnwrap
    | some fpc =>
      match calculate_updated_collateral user.collateral fpc with
      | .error e => .error e
      | .ok c2 => .ok ({ user with collateral := c2 }, { ups with positions := ps })

/-- Loop 1 of `calculate_margin_ratio` (src/main.rs lines 190-205): sum each
active position's notional value (`checked_add(..).unwrap()`) and unrealized
P&L (`checked_add(..).unwrap()`). -/
def marginLoop (mkts : Markets) :
    List MarketPosition → Nat → Int → Except RErr (Nat × Int)
  | [], bav, upnl => .ok (bav, upnl)
  | p :: rest, bav, upnl =>
    if p.base_asset_amount = 0 then marginLoop mkts rest bav upnl
    else
      match indexMarkets mkts p.market_index with
      | .error e => .error e
      | .ok market =>
        match calculate_base_asset_value_and_pnl p market.amm with
        | .error e => .error e
        | .ok (pbav, ppnl) =>
          match checkedAddU128 bav pbav with
          | none => .error .panicUnwrap
          | some bav2 =>
            match checkedAddI128 upnl ppnl with
            | none => .error .panicUnwrap
            | some upnl2 => marginLoop mkts rest bav2 upnl2

/-- The tail of `calculate_margin_ratio` (src/main.rs lines 207-219): with a
zero aggregate notional, return the sentinel pair; otherwise adjust the
collateral by the aggregate P&L, multiply by the margin precision
(`checked_mul(..).unwrap()`) and divide by the aggregate notional
(`checked_div(..).unwrap()`). -/
def marginFromTotals (collateral bav : Nat) (upnl : Int) :
    Except RErr (Nat × Int × Nat × Nat) :=
  if bav = 0 then .ok (U128_MAX, upnl, bav, U128_MAX)
  else
    match calculate_updated_collateral collateral upnl with
    | .error e => .error e
    | .ok tc =>
      match checkedMulU128 tc MARGIN_PRECISION with
      | none => .error .panicUnwrap
      | some m =>
        match checkedDivU128 m bav with
        | none => .error .panicUnwrap
        | some mr => .ok (tc, upnl, bav, mr)

/-- `calculate_margin_ratio` (src/main.rs lines 181-227): returns
(total collateral, unrealized P&L, notional value, margin ratio). -/
def calculate_margin_ratio (user : User) (ups : UserPositions) (mkts : Markets) :
    Except RErr (Nat × Int × Nat × Nat) :=
  match marginLoop mkts ups.positions 0 0 with
  | .error e => .error e
  | .ok (bav, upnl) => marginFromTotals user.collateral bav upnl

/-- Modelled from the spec: an entry of the instruction's "ordered
account-reference list" (solana `AccountMeta`, not code of this
repository). -/
structure AccountMeta where
  pubkey : Pubkey
  is_signer : Bool
  is_writable : Bool
deriving DecidableEq

/-- Modelled from the spec: a writable account reference
(`AccountMeta::new`). -/
def AccountMeta.new (pk : Pubkey) (s : Bool) : AccountMeta := ⟨pk, s, true⟩

/-- Modelled from the spec: a read-only account reference
(`AccountMeta::new_readonly`). -/
def AccountMeta.new_readonly (pk : Pubkey) (s : Bool) : AccountMeta := ⟨pk, s, false⟩

/-- Modelled from the spec: the "token-program identity" (`spl_token::id()`,
an external constant address). -/
def spl_token_id : Pubkey := 777001

/-- The fixed head of the liquidation instruction's account list
(src/main.rs lines 88-103), in source order. -/
def fixedAccounts (statePk payerPk liqAcct userPk : Pubkey) (st : State)
    (ua : User) : List AccountMeta :=
  [ AccountMeta.new_readonly statePk false,
    AccountMeta.new payerPk true,
    AccountMeta.new liqAcct false,
    AccountMeta.new userPk false,
    AccountMeta.new st.collateral_vault false,
    AccountMeta.new_readonly st.collateral_vault_authority false,
    AccountMeta.new st.insurance_vault false,
    AccountMeta.new_readonly st.insurance_vault_authority false,
    AccountMeta.new_readonly spl_token_id false,
    AccountMeta.new st.markets false,
    AccountMeta.new ua.positions false,
    AccountMeta.new st.trade_history false,
    AccountMeta.new st.liquidation_history false,
    AccountMeta.new st.funding_payment_history false ]

/-- The oracle loop (src/main.rs lines 105-110): for each position in order,
when its exposure is nonzero, index the market table
(`markets.1.markets[position.market_index as usize]`, a panicking index) and
push the market's oracle as a read-only reference. -/
def oracleMetas (mkts : Markets) : List MarketPosition → Except RErr (List AccountMeta)
  | [] => .ok []
  | p :: rest =>
    if p.base_asset_amount ≠ 0 then
      match indexMarkets mkts p.market_index with
      | .error e => .error e
      | .ok market =>
        match oracleMetas mkts rest with
        | .error e => .error e
        | .ok os => .ok (AccountMeta.new_readonly market.amm.oracle false :: os)
    else oracleMetas mkts rest

/-- The complete account list of the liquidation instruction: the fixed head
followed by the oracle references. -/
def buildLiquidationAccounts (statePk payerPk liqAcct userPk : Pubkey)
    (st : State) (ua : User) (ups : UserPositions) (mkts : Markets) :
    Except RErr (List AccountMeta) :=
  match oracleMetas mkts ups.positions with
  | .error e => .error e
  | .ok os => .ok (fixedAccounts statePk payerPk liqAcct userPk st ua ++ os)

/-- A network (RPC) failure, opaque to the program. -/
inductive NetErr where
  | failed
deriving DecidableEq

/-- How one account's cycle task ends: `skipped` (logged early return after
a failed snapshot read), `completed` (ran to the end of the closure), or
`panicked` (a Rust panic — an `.unwrap()` on an error — which unwinds out of
the rayon worker and terminates the process). -/
inductive Outcome where
  | skipped
  | completed
  | panicked
deriving DecidableEq

/-- What one account's cycle task produced: its outcome, the account's
Account Registry entry afterwards, whether the read-failure message was
printed, whether the liquidation branch was entered, and the instruction's
account list when it was assembled. -/
structure TaskResult where
  outcome : Outcome
  registryEntry : User
  loggedSkip : Bool
  liquidationTriggered : Bool
  liquidationAccounts : Option (List AccountMeta)
deriving DecidableEq

/-- The per-account closure of the cycle fan-out (src/main.rs lines 66-130).
The network interactions are passed in as their results: the two concurrent
snapshot reads (Position Set bytes, Account Principal bytes, both already
decoded), the recent-blockhash fetch, and the post-liquidation re-fetch of
the principal.  A failed snapshot read logs and returns early, leaving the
registry entry unchanged; every later failure is `.unwrap()`ed, i.e.
panics. -/
def cycleTask (payerPk liqAcct statePk : Pubkey) (st : State) (mkts : Markets)
    (userPk : Pubkey) (user0 : User)
    (positionsRead : Except NetErr UserPositions)
    (accountRead : Except NetErr User)
    (blockhashRead : Except NetErr Nat)
    (refetchRead : Except NetErr User) : TaskResult :=
  match positionsRead, accountRead with
  | .error _, _ => ⟨.skipped, user0, true, false, none⟩
  | .ok _, .error _ => ⟨.skipped, user0, true, false, none⟩
  | .ok ups, .ok ua =>
    match settle_funding_payment ua ups mkts with
    | .error _ => ⟨.panicked, ua, false, false, none⟩
    | .ok (ua2, ups2) =>
      match calculate_margin_ratio ua2 ups2 mkts with
      | .error _ => ⟨.panicked, ua2, false, false, none⟩
      | .ok (_tc, _upnl, _bav, mr) =>
        if mr ≤ st.margin_ratio_partial then
          match buildLiquidationAccounts statePk payerPk liqAcct userPk st ua2 ups2 mkts with
          | .error _ => ⟨.panicked, ua2, false, true, none⟩
          | .ok accts =>
            match blockhashRead with
            | .error _ => ⟨.panicked, ua2, false, true, some accts⟩
            | .ok _ =>
              match refetchRead with
              | .error _ => ⟨.panicked, ua2, false, true, some accts⟩
              | .ok ua3 => ⟨.completed, ua3, false, true, some accts⟩
        else ⟨.completed, ua2, false, false, none⟩

/-- How the top-of-cycle Market Table refresh ends. -/
inductive RefreshResult where
  | refreshed (m : Markets)
  | panicked
deriving DecidableEq

/-- The Market Table refresh at the top of each cycle (src/main.rs line 64):
`client.get_account_data(&markets.0).unwrap()` — a failed read is
`.unwrap()`ed, i.e. panics and terminates the process. -/
def refreshMarkets (readResult : Except NetErr Markets) : RefreshResult :=
  match readResult with
  | .ok m => .refreshed m
  | .error _ => .panicked

/-- A raw account returned by the bootstrap enumeration, carried with the
results of the three external typed decode attempts (the decoders are
external collaborators; each either succeeds or fails on given bytes). -/
structure RawAccount where
  pubkey : Pubkey
  decodeUser : Option User
  decodeMarkets : Option Markets
  decodeState : Option State
deriving DecidableEq

/-- What bootstrap makes of one raw account. -/
inductive Classification where
  | principal (u : User)
  | marketTable (m : Markets)
  | parameters (s : State)
  | dropped
deriving DecidableEq

/-- Bootstrap trial-order classification (src/main.rs lines 32-57): try the
principal decode first, then the market table, then the parameters, keeping
the first success; an account matching none falls off the end of the loop
body. -/
def classify (a : RawAccount) : Classification :=
  match a.decodeUser with
  | some u => .principal u
  | none =>
    match a.decodeMarkets with
    | some m => .marketTable m
    | none =>
      match a.decodeState with
      | some s => .parameters s
      | none => .dropped

/-- The mutable state of the bootstrap loop: the Account Registry being
built, the last-seen market table and parameters record, and the submitter's
own venue account. -/
structure BootstrapState where
  users : List (Pubkey × User)
  markets : Pubkey × Markets
  state : Pubkey × State
  liquidator_drift_account : Pubkey
deriving DecidableEq

/-- One iteration of the bootstrap loop body (src/main.rs lines 32-57):
a principal is appended to the registry (and recognised as the submitter's
own account when its authority matches the payer); a market table or a
parameters record replaces the held one; anything else changes nothing. -/
def bootstrapStep (payerPk : Pubkey) (s : BootstrapState) (a : RawAccount) :
    BootstrapState :=
  match classify a with
  | .principal u =>
    { s with
        users := s.users ++ [(a.pubkey, u)],
        liquidator_drift_account :=
          if u.authority = payerPk then a.pubkey else s.liquidator_drift_account }
  | .marketTable m => { s with markets := (a.pubkey, m) }
  | .parameters ps => { s with state := (a.pubkey, ps) }
  | .dropped => s

/-- The bootstrap loop: one pass over the enumerated accounts. -/
def bootstrapFold (payerPk : Pubkey) (s : BootstrapState) :
    List RawAccount → BootstrapState
  | [] => s
  | a :: rest => bootstrapFold payerPk (bootstrapStep payerPk s a) rest

/-- How one position relates to its pre-settlement self after a successful
`settle_funding_payment`: a flat position is unchanged; an active position
whose stored rate already equals its side's current cumulative rate is
unchanged (in particular its timestamp is not advanced); an active position
whose stored rate differs has exactly its rate and timestamp advanced to the
market's current values. -/
def PosSpec (mkts : Markets) (p p' : MarketPosition) : Prop :=
  (p.base_asset_amount = 0 ∧ p' = p) ∨
  (p.base_asset_amount ≠ 0 ∧ ∃ market, mkts.markets.get? p.market_index = some market ∧
    ((sideRate p market = p.last_cumulative_funding_rate ∧ p' = p) ∨
     (sideRate p market ≠ p.last_cumulative_funding_rate ∧
      p' = { p with last_cumulative_funding_rate := sideRate p market,
                    last_funding_rate_ts := market.amm.last_funding_rate_ts })))

/-- A position on which the settlement loop has nothing to do: flat, or its
stored rate equals its side's current cumulative rate (with the market
lookup succeeding). -/
def Settled (mkts : Markets) (p : MarketPosition) : Prop :=
  p.base_asset_amount = 0 ∨
  ∃ market, mkts.markets.get? p.market_index = some market ∧
    sideRate p market = p.last_cumulative_funding_rate

end Drift

deriving instance DecidableEq for Except

namespace Drift

theorem indexMarkets_ok {mkts : Markets} {i : Nat} {market : Market}
    (h : indexMarkets mkts i = .ok market) :
    mkts.markets.get? i = some market := by
  unfold indexMarkets at h
  cases hg : mkts.markets.get? i with
  | none => rw [hg] at h; cases h
  | some m =>
    rw [hg] at h
    simp only [Except.ok.injEq] at h
    rw [h]

theorem indexMarkets_of_get {mkts : Markets} {i : Nat} {market : Market}
    (h : mkts.markets.get? i = some market) :
    indexMarkets mkts i = .ok market := by
  unfold indexMarkets
  rw [h]

/-- Each element of the right list of a `Forall₂` is related to some element
of the left list. -/
theorem forall₂_right_mem {α β : Type} {R : α → β → Prop} :
    ∀ {l1 : List α} {l2 : List β}, List.Forall₂ R l1 l2 →
      ∀ b ∈ l2, ∃ a, R a b := by
  intro l1 l2 h
  induction h with
  | nil => intro b hb; cases hb
  | @cons a b l1 l2 hr _ ih =>
    intro c hc
    rcases List.mem_cons.mp hc with rfl | hc
    · exact ⟨a, hr⟩
    · exact ih c hc

/-- The settlement loop's per-position effect: on success, the output
positions relate to the input positions by `PosSpec`. -/
theorem settlePositions_ok_posSpec (mkts : Markets) (ps : List MarketPosition) :
    ∀ (acc fp : Int) (ps' : List MarketPosition),
      settlePositions mkts ps acc = .ok (fp, ps') →
      List.Forall₂ (PosSpec mkts) ps ps' := by
  induction ps with
  | nil =>
    intro acc fp ps' h
    simp only [settlePositions, Except.ok.injEq, Prod.mk.injEq] at h
    rw [← h.2]
    exact List.Forall₂.nil
  | cons p rest ih =>
    intro acc fp ps' h
    simp only [settlePositions] at h
    by_cases hb : p.base_asset_amount = 0
    · rw [if_pos hb] at h
      cases hrec : settlePositions mkts rest acc with
      | error e => rw [hrec] at h; cases h
      | ok pr =>
        obtain ⟨fp0, ps0⟩ := pr
        rw [hrec] at h
        simp only [Except.ok.injEq, Prod.mk.injEq] at h
        rw [← h.2]
        exact List.Forall₂.cons (Or.inl ⟨hb, rfl⟩) (ih acc fp0 ps0 hrec)
    · rw [if_neg hb] at h
      cases hm : indexMarkets mkts p.market_index with
      | error e => rw [hm] at h; cases h
      | ok market =>
        rw [hm] at h
        dsimp only at h
        by_cases hr : sideRate p market = p.last_cumulative_funding_rate
        · rw [if_pos hr] at h
          cases hrec : settlePositions mkts rest acc with
          | error e => rw [hrec] at h; cases h
          | ok pr =>
            obtain ⟨fp0, ps0⟩ := pr
            rw [hrec] at h
            simp only [Except.ok.injEq, Prod.mk.injEq] at h
            rw [← h.2]
            exact List.Forall₂.cons
              (Or.inr ⟨hb, market, indexMarkets_ok hm, Or.inl ⟨hr, rfl⟩⟩)
              (ih acc fp0 ps0 hrec)
        · rw [if_neg hr] at h
          cases hpay : calculate_funding_payment (sideRate p market) p with
          | error e => rw [hpay] at h; cases h
          | ok pay =>
            rw [hpay] at h
            dsimp only at h
            cases hadd : checkedAddI128 acc pay with
            | none => rw [hadd] at h; cases h
            | some acc2 =>
              rw [hadd] at h
              dsimp only at h
              cases hrec : settlePositions mkts rest acc2 with
              | error e => rw [hrec] at h; cases h
              | ok pr =>
                obtain ⟨fp0, ps0⟩ := pr
                rw [hrec] at h
                simp only [Except.ok.injEq, Prod.mk.injEq] at h
                rw [← h.2]
                exact List.Forall₂.cons
                  (Or.inr ⟨hb, market, indexMarkets_ok hm, Or.inr ⟨hr, rfl⟩⟩)
                  (ih acc2 fp0 ps0 hrec)

/-- A position that `PosSpec` relates to anything is settled afterwards. -/
theorem posSpec_settled {mkts : Markets} {p p' : MarketPosition}
    (h : PosSpec mkts p p') : Settled mkts p' := by
  rcases h with ⟨hz, rfl⟩ | ⟨hnz, market, hget, hcase⟩
  · exact Or.inl hz
  · rcases hcase with ⟨heq, rfl⟩ | ⟨hne, rfl⟩
    · exact Or.inr ⟨market, hget, heq⟩
    · refine Or.inr ⟨market, hget, ?_⟩
      simp [sideRate]

/-- On a list of settled positions, the settlement loop changes nothing and
accumulates no payment. -/
theorem settlePositions_settled (mkts : Markets) :
    ∀ (ps : List MarketPosition), (∀ p ∈ ps, Settled mkts p) →
      ∀ acc : Int, settlePositions mkts ps acc = .ok (acc, ps) := by
  intro ps
  induction ps with
  | nil => intro _ acc; rfl
  | cons p rest ih =>
    intro h acc
    have hp := h p (List.mem_cons_self p rest)
    have hrest : ∀ q ∈ rest, Settled mkts q := fun q hq => h q (List.mem_cons_of_mem p hq)
    by_cases hz : p.base_asset_amount = 0
    · simp only [settlePositions, if_pos hz, ih hrest acc]
    · rcases hp with hz' | ⟨market, hget, heq⟩
      · exact absurd hz' hz
      · simp only [settlePositions, if_neg hz, indexMarkets_of_get hget,
          if_pos heq, ih hrest acc]

theorem checkedDivI128_zero :
    checkedDivI128 0 AMM_TO_QUOTE_PRECISION_RATIO_I128 = some 0 := by decide

theorem updated_collateral_zero (c : Nat) :
    calculate_updated_collateral c 0 = .ok c := by
  simp [calculate_updated_collateral]

/-- C5: Funding Settlement is idempotent.  Running `settle_funding_payment`
a second time immediately after a successful first run, with the Market
Table unchanged, returns exactly the first run's account and positions:
the second run changes neither the collateral nor any checkpoint. -/
theorem settle_funding_payment_idempotent
    {user u2 : User} {ups ups2 : UserPositions} {mkts : Markets}
    (h : settle_funding_payment user ups mkts = .ok (u2, ups2)) :
    settle_funding_payment u2 ups2 mkts = .ok (u2, ups2) := by
  unfold settle_funding_payment at h
  cases hsp : settlePositions mkts ups.positions 0 with
  | error e => rw [hsp] at h; cases h
  | ok pr =>
    obtain ⟨fp, ps⟩ := pr
    rw [hsp] at h
    dsimp only at h
    cases hdiv : checkedDivI128 fp AMM_TO_QUOTE_PRECISION_RATIO_I128 with
    | none => rw [hdiv] at h; cases h
    | some fpc =>
      rw [hdiv] at h
      dsimp only at h
      cases hcol : calculate_updated_collateral user.collateral fpc with
      | error e => rw [hcol] at h; cases h
      | ok c2 =>
        rw [hcol] at h
        simp only [Except.ok.injEq, Prod.mk.injEq] at h
        obtain ⟨hu2, hups2⟩ := h
        have hsettled : ∀ p ∈ ps, Settled mkts p := by
          intro p hp
          obtain ⟨q, hq⟩ :=
            forall₂_right_mem (settlePositions_ok_posSpec mkts ups.positions 0 fp ps hsp) p hp
          exact posSpec_settled hq
        have hpos : ups2.positions = ps := by rw [← hups2]
        unfold settle_funding_payment
        rw [hpos, settlePositions_settled mkts ps hsettled 0]
        dsimp only
        rw [checkedDivI128_zero]
        dsimp only
        rw [updated_collateral_zero u2.collateral]
        dsimp only
        rw [← hpos]

/-- C5 witness: a concrete account with one active position whose checkpoint
lags the market; the first run debits the collateral and advances the
checkpoint, the second run applies the theorem and changes nothing. -/
theorem settle_funding_payment_idempotent_witness :
    settle_funding_payment ⟨1, 1000, 42⟩ ⟨[⟨0, 10, 5, 0, 5⟩]⟩
        ⟨[⟨⟨1, 10 ^ 11, 200, 7, 0⟩⟩]⟩ =
      .ok (⟨1, 990, 42⟩, ⟨[⟨0, 10, 5, 10 ^ 11, 7⟩]⟩) ∧
    settle_funding_payment ⟨1, 990, 42⟩ ⟨[⟨0, 10, 5, 10 ^ 11, 7⟩]⟩
        ⟨[⟨⟨1, 10 ^ 11, 200, 7, 0⟩⟩]⟩ =
      .ok (⟨1, 990, 42⟩, ⟨[⟨0, 10, 5, 10 ^ 11, 7⟩]⟩) :=
  ⟨by decide,
    @settle_funding_payment_idempotent ⟨1, 1000, 42⟩ ⟨1, 990, 42⟩
      ⟨[⟨0, 10, 5, 0, 5⟩]⟩ ⟨[⟨0, 10, 5, 10 ^ 11, 7⟩]⟩
      ⟨[⟨⟨1, 10 ^ 11, 200, 7, 0⟩⟩]⟩ (by decide)⟩

/-- C10 (amended): after a successful `settle_funding_payment`, the output
positions relate to the inputs pointwise by `PosSpec` — a flat position is
unchanged, an active position whose stored side rate differed from the
market's has rate and timestamp advanced, and an active position whose
stored rate already matched is left entirely unchanged (its timestamp is
not advanced to the market's) — and consequently every output position is
`Settled`: flat, or storing exactly its side's current cumulative rate. -/
theorem settle_checkpoints_on_success
    {user u2 : User} {ups ups2 : UserPositions} {mkts : Markets}
    (h : settle_funding_payment user ups mkts = .ok (u2, ups2)) :
    List.Forall₂ (PosSpec mkts) ups.positions ups2.positions ∧
    ∀ p ∈ ups2.positions, Settled mkts p := by
  unfold settle_funding_payment at h
  cases hsp : settlePositions mkts ups.positions 0 with
  | error e => rw [hsp] at h; cases h
  | ok pr =>
    obtain ⟨fp, ps⟩ := pr
    rw [hsp] at h
    dsimp only at h
    cases hdiv : checkedDivI128 fp AMM_TO_QUOTE_PRECISION_RATIO_I128 with
    | none => rw [hdiv] at h; cases h
    | some fpc =>
      rw [hdiv] at h
      dsimp only at h
      cases hcol : calculate_updated_collateral user.collateral fpc with
      | error e => rw [hcol] at h; cases h
      | ok c2 =>
        rw [hcol] at h
        simp only [Except.ok.injEq, Prod.mk.injEq] at h
        have hpos : ups2.positions = ps := by rw [← h.2]
        rw [hpos]
        refine ⟨settlePositions_ok_posSpec mkts ups.positions 0 fp ps hsp, ?_⟩
        intro p hp
        obtain ⟨q, hq⟩ :=
          forall₂_right_mem (settlePositions_ok_posSpec mkts ups.positions 0 fp ps hsp) p hp
        exact posSpec_settled hq

/-- C10 witness: one lagging active position (rate and timestamp advance)
next to one flat position (unchanged); the theorem is applied at this
input. -/
theorem settle_checkpoints_on_success_witness :
    List.Forall₂ (PosSpec ⟨[⟨⟨1, 10 ^ 11, 200, 7, 0⟩⟩]⟩)
      [⟨0, 10, 5, 0, 5⟩, ⟨0, 0, 0, 0, 0⟩]
      (UserPositions.positions ⟨[⟨0, 10, 5, 10 ^ 11, 7⟩, ⟨0, 0, 0, 0, 0⟩]⟩) ∧
    ∀ p ∈ UserPositions.positions ⟨[⟨0, 10, 5, 10 ^ 11, 7⟩, ⟨0, 0, 0, 0, 0⟩]⟩,
      Settled ⟨[⟨⟨1, 10 ^ 11, 200, 7, 0⟩⟩]⟩ p :=
  @settle_checkpoints_on_success ⟨1, 1000, 42⟩ ⟨1, 990, 42⟩
    ⟨[⟨0, 10, 5, 0, 5⟩, ⟨0, 0, 0, 0, 0⟩]⟩
    ⟨[⟨0, 10, 5, 10 ^ 11, 7⟩, ⟨0, 0, 0, 0, 0⟩]⟩
    ⟨[⟨⟨1, 10 ^ 11, 200, 7, 0⟩⟩]⟩ (by decide)

theorem funding_payment_not_panicIndex (r : Int) (p : MarketPosition) :
    calculate_funding_payment r p ≠ .error .panicIndex := by
  intro h
  unfold calculate_funding_payment at h
  cases hs : checkedSubI128 r p.last_cumulative_funding_rate with
  | none => rw [hs] at h; simp at h
  | some delta =>
    rw [hs] at h
    dsimp only at h
    split_ifs at h <;> simp at h

theorem base_value_pnl_not_panicIndex (p : MarketPosition) (amm : AMM) :
    calculate_base_asset_value_and_pnl p amm ≠ .error .panicIndex := by
  intro h
  unfold calculate_base_asset_value_and_pnl at h
  by_cases h0 : p.base_asset_amount = 0
  · rw [if_pos h0] at h; simp at h
  · rw [if_neg h0] at h
    dsimp only at h
    by_cases hv : U128_MAX < p.base_asset_amount.natAbs * amm.price / PRICE_PRECISION
    · rw [if_pos hv] at h; simp at h
    · rw [if_neg hv] at h
      split_ifs at h <;> simp at h

theorem updated_collateral_not_panicIndex (c : Nat) (pnl : Int) :
    calculate_updated_collateral c pnl ≠ .error .panicIndex := by
  intro h
  unfold calculate_updated_collateral at h
  split_ifs at h <;> simp at h

/-- With every active position's market index in range, the settlement loop
cannot hit the out-of-range-index branch. -/
theorem settlePositions_no_panicIndex (mkts : Markets) :
    ∀ (ps : List MarketPosition),
      (∀ p ∈ ps, p.base_asset_amount ≠ 0 → p.market_index < mkts.markets.length) →
      ∀ acc : Int, settlePositions mkts ps acc ≠ .error .panicIndex := by
  intro ps
  induction ps with
  | nil => intro _ acc h; cases h
  | cons p rest ih =>
    intro hb acc h
    have hrest : ∀ q ∈ rest, q.base_asset_amount ≠ 0 → q.market_index < mkts.markets.length :=
      fun q hq => hb q (List.mem_cons_of_mem p hq)
    simp only [settlePositions] at h
    by_cases hz : p.base_asset_amount = 0
    · rw [if_pos hz] at h
      cases hrec : settlePositions mkts rest acc with
      | error e =>
        rw [hrec] at h
        dsimp only at h
        cases h
        exact ih hrest acc hrec
      | ok pr => obtain ⟨fp0, ps0⟩ := pr; rw [hrec] at h; simp at h
    · rw [if_neg hz] at h
      have hlt := hb p (List.mem_cons_self p rest) hz
      have hidx : indexMarkets mkts p.market_index =
          .ok (mkts.markets.get ⟨p.market_index, hlt⟩) :=
        indexMarkets_of_get (List.get?_eq_get hlt)
      rw [hidx] at h
      dsimp only at h
      split at h
      · cases hrec : settlePositions mkts rest acc with
        | error e =>
          rw [hrec] at h
          dsimp only at h
          cases h
          exact ih hrest acc hrec
        | ok pr => obtain ⟨fp0, ps0⟩ := pr; rw [hrec] at h; simp at h
      · cases hpay : calculate_funding_payment
            (sideRate p (mkts.markets.get ⟨p.market_index, hlt⟩)) p with
        | error e =>
          rw [hpay] at h
          dsimp only at h
          cases h
          exact funding_payment_not_panicIndex _ p hpay
        | ok pay =>
          rw [hpay] at h
          dsimp only at h
          cases hadd : checkedAddI128 acc pay with
          | none => rw [hadd] at h; simp at h
          | some acc2 =>
            rw [hadd] at h
            dsimp only at h
            cases hrec : settlePositions mkts rest acc2 with
            | error e =>
              rw [hrec] at h
              dsimp only at h
              cases h
              exact ih hrest acc2 hrec
            | ok pr => obtain ⟨fp0, ps0⟩ := pr; rw [hrec] at h; simp at h

/-- With every active position's market index in range, the risk loop cannot
hit the out-of-range-index branch. -/
theorem marginLoop_no_panicIndex (mkts : Markets) :
    ∀ (ps : List MarketPosition),
      (∀ p ∈ ps, p.base_asset_amount ≠ 0 → p.market_index < mkts.markets.length) →
      ∀ (bav : Nat) (upnl : Int), marginLoop mkts ps bav upnl ≠ .error .panicIndex := by
  intro ps
  induction ps with
  | nil => intro _ bav upnl h; cases h
  | cons p rest ih =>
    intro hb bav upnl h
    have hrest : ∀ q ∈ rest, q.base_asset_amount ≠ 0 → q.market_index < mkts.markets.length :=
      fun q hq => hb q (List.mem_cons_of_mem p hq)
    simp only [marginLoop] at h
    by_cases hz : p.base_asset_amount = 0
    · rw [if_pos hz] at h
      exact ih hrest bav upnl h
    · rw [if_neg hz] at h
      have hlt := hb p (List.mem_cons_self p rest) hz
      have hidx : indexMarkets mkts p.market_index =
          .ok (mkts.markets.get ⟨p.market_index, hlt⟩) :=
        indexMarkets_of_get (List.get?_eq_get hlt)
      rw [hidx] at h
      dsimp only at h
      cases hv : calculate_base_asset_value_and_pnl p
          (mkts.markets.get ⟨p.market_index, hlt⟩).amm with
      | error e =>
        rw [hv] at h
        dsimp only at h
        cases h
        exact base_value_pnl_not_panicIndex p _ hv
      | ok pr =>
        obtain ⟨pbav, ppnl⟩ := pr
        rw [hv] at h
        dsimp only at h
        cases ha1 : checkedAddU128 bav pbav with
        | none => rw [ha1] at h; simp at h
        | some bav2 =>
          rw [ha1] at h
          dsimp only at h
          cases ha2 : checkedAddI128 upnl ppnl with
          | none => rw [ha2] at h; simp at h
          | some upnl2 =>
            rw [ha2] at h
            dsimp only at h
            exact ih hrest bav2 upnl2 h

/-- With every active position's market index in range, the oracle loop
succeeds, and each oracle entry is that of its position's market, in
position order. -/
theorem oracleMetas_ok (mkts : Markets) :
    ∀ (ps : List MarketPosition),
      (∀ p ∈ ps, p.base_asset_amount ≠ 0 → p.market_index < mkts.markets.length) →
      ∃ os, oracleMetas mkts ps = .ok os ∧
        List.Forall₂
          (fun p a => ∃ market, mkts.markets.get? p.market_index = some market ∧
            a = AccountMeta.new_readonly market.amm.oracle false)
          (ps.filter fun p => p.base_asset_amount ≠ 0) os := by
  intro ps
  induction ps with
  | nil => exact fun _ => ⟨[], rfl, by simp⟩
  | cons p rest ih =>
    intro hb
    obtain ⟨os, hos, hf⟩ := ih (fun q hq => hb q (List.mem_cons_of_mem p hq))
    by_cases hz : p.base_asset_amount = 0
    · refine ⟨os, ?_, ?_⟩
      · simp only [oracleMetas, if_neg (not_not_intro hz)]
        exact hos
      · rw [List.filter_cons_of_neg (by simp [hz])]
        exact hf
    · have hlt := hb p (List.mem_cons_self p rest) hz
      have hget : mkts.markets.get? p.market_index =
          some (mkts.markets.get ⟨p.market_index, hlt⟩) :=
        List.get?_eq_get hlt
      refine ⟨AccountMeta.new_readonly (mkts.markets.get ⟨p.market_index, hlt⟩).amm.oracle false
          :: os, ?_, ?_⟩
      · simp only [oracleMetas, if_pos hz, indexMarkets_of_get hget, hos]
      · rw [List.filter_cons_of_pos (by simp [hz])]
        exact List.Forall₂.cons ⟨mkts.markets.get ⟨p.market_index, hlt⟩, hget, rfl⟩ hf

/-- C9: under the invariant that every active (nonzero-exposure) position
references a valid index into the current Market Table, no market-table
lookup fails: funding settlement and the risk evaluator can never return the
index-panic error, and the oracle-list construction succeeds outright. -/
theorem valid_index_lookups_never_fail
    {u : User} {ups : UserPositions} {mkts : Markets}
    (hb : ∀ p ∈ ups.positions,
      p.base_asset_amount ≠ 0 → p.market_index < mkts.markets.length) :
    settle_funding_payment u ups mkts ≠ .error .panicIndex ∧
    calculate_margin_ratio u ups mkts ≠ .error .panicIndex ∧
    ∃ os, oracleMetas mkts ups.positions = .ok os := by
  refine ⟨?_, ?_, ?_⟩
  · intro h
    unfold settle_funding_payment at h
    cases hsp : settlePositions mkts ups.positions 0 with
    | error e =>
      rw [hsp] at h
      dsimp only at h
      cases h
      exact settlePositions_no_panicIndex mkts ups.positions hb 0 hsp
    | ok pr =>
      obtain ⟨fp, ps⟩ := pr
      rw [hsp] at h
      dsimp only at h
      cases hdiv : checkedDivI128 fp AMM_TO_QUOTE_PRECISION_RATIO_I128 with
      | none => rw [hdiv] at h; simp at h
      | some fpc =>
        rw [hdiv] at h
        dsimp only at h
        cases hcol : calculate_updated_collateral u.collateral fpc with
        | error e =>
          rw [hcol] at h
          dsimp only at h
          cases h
          exact updated_collateral_not_panicIndex u.collateral fpc hcol
        | ok c2 => rw [hcol] at h; simp at h
  · intro h
    unfold calculate_margin_ratio at h
    cases hl : marginLoop mkts ups.positions 0 0 with
    | error e =>
      rw [hl] at h
      dsimp only at h
      cases h
      exact marginLoop_no_panicIndex mkts ups.positions hb 0 0 hl
    | ok pr =>
      obtain ⟨bav, upnl⟩ := pr
      rw [hl] at h
      dsimp only at h
      unfold marginFromTotals at h
      split at h
      · simp at h
      · cases hcol : calculate_updated_collateral u.collateral upnl with
        | error e =>
          rw [hcol] at h
          dsimp only at h
          cases h
          exact updated_collateral_not_panicIndex u.collateral upnl hcol
        | ok tc =>
          rw [hcol] at h
          dsimp only at h
          cases hm : checkedMulU128 tc MARGIN_PRECISION with
          | none => rw [hm] at h; simp at h
          | some m =>
            rw [hm] at h
            dsimp only at h
            cases hd : checkedDivU128 m bav with
            | none => rw [hd] at h; simp at h
            | some mr => rw [hd] at h; simp at h
  · obtain ⟨os, hos, _⟩ := oracleMetas_ok mkts ups.positions hb
    exact ⟨os, hos⟩

/-- C9 witness: one in-range active position next to a flat one; the
invariant holds, the theorem applies, and the oracle list evaluates. -/
theorem valid_index_lookups_never_fail_witness :
    settle_funding_payment ⟨1, 1000, 42⟩ ⟨[⟨0, 10, 5, 100, 5⟩, ⟨3, 0, 0, 0, 0⟩]⟩
        ⟨[⟨⟨9, 100, 200, 7, 0⟩⟩]⟩ ≠ .error .panicIndex ∧
    calculate_margin_ratio ⟨1, 1000, 42⟩ ⟨[⟨0, 10, 5, 100, 5⟩, ⟨3, 0, 0, 0, 0⟩]⟩
        ⟨[⟨⟨9, 100, 200, 7, 0⟩⟩]⟩ ≠ .error .panicIndex ∧
    ∃ os, oracleMetas ⟨[⟨⟨9, 100, 200, 7, 0⟩⟩]⟩ [⟨0, 10, 5, 100, 5⟩, ⟨3, 0, 0, 0, 0⟩] =
      .ok os :=
  @valid_index_lookups_never_fail ⟨1, 1000, 42⟩
    ⟨[⟨0, 10, 5, 100, 5⟩, ⟨3, 0, 0, 0, 0⟩]⟩ ⟨[⟨⟨9, 100, 200, 7, 0⟩⟩]⟩ (by decide)

theorem checkedMulU128_some {a b m : Nat} (h : checkedMulU128 a b = some m) :
    m = a * b := by
  unfold checkedMulU128 at h
  split_ifs at h
  injection h with h
  omega

theorem checkedDivU128_some {a b q : Nat} (h : checkedDivU128 a b = some q) :
    q = a / b := by
  unfold checkedDivU128 at h
  split_ifs at h
  injection h with h
  omega

/-- The modelled collateral update is monotone in the collateral: clamping
at zero, adding a gain, or subtracting a loss all preserve order. -/
theorem updated_collateral_mono {c1 c2 : Nat} {pnl : Int} {t1 t2 : Nat}
    (hc : c1 ≤ c2)
    (h1 : calculate_updated_collateral c1 pnl = .ok t1)
    (h2 : calculate_updated_collateral c2 pnl = .ok t2) : t1 ≤ t2 := by
  unfold calculate_updated_collateral at h1 h2
  split_ifs at h1 h2 <;>
    first
    | exact Except.noConfusion h1
    | exact Except.noConfusion h2
    | (injection h1 with e1
       injection h2 with e2
       omega)

/-- The margin-ratio tail is monotone in the collateral when both
evaluations succeed. -/
theorem marginFromTotals_mono {c1 c2 bav : Nat} {upnl : Int}
    {tc1 tc2 b1 b2 mr1 mr2 : Nat} {w1 w2 : Int}
    (hc : c1 ≤ c2)
    (h1 : marginFromTotals c1 bav upnl = .ok (tc1, w1, b1, mr1))
    (h2 : marginFromTotals c2 bav upnl = .ok (tc2, w2, b2, mr2)) :
    mr1 ≤ mr2 := by
  unfold marginFromTotals at h1 h2
  by_cases hz : bav = 0
  · rw [if_pos hz] at h1 h2
    simp only [Except.ok.injEq, Prod.mk.injEq] at h1 h2
    rw [← h1.2.2.2, ← h2.2.2.2]
  · rw [if_neg hz] at h1 h2
    cases hcol1 : calculate_updated_collateral c1 upnl with
    | error e => rw [hcol1] at h1; cases h1
    | ok t1 =>
      rw [hcol1] at h1
      dsimp only at h1
      cases hcol2 : calculate_updated_collateral c2 upnl with
      | error e => rw [hcol2] at h2; cases h2
      | ok t2 =>
        rw [hcol2] at h2
        dsimp only at h2
        have ht := updated_collateral_mono hc hcol1 hcol2
        cases hm1 : checkedMulU128 t1 MARGIN_PRECISION with
        | none => rw [hm1] at h1; cases h1
        | some m1 =>
          rw [hm1] at h1
          dsimp only at h1
          cases hm2 : checkedMulU128 t2 MARGIN_PRECISION with
          | none => rw [hm2] at h2; cases h2
          | some m2 =>
            rw [hm2] at h2
            dsimp only at h2
            cases hd1 : checkedDivU128 m1 bav with
            | none => rw [hd1] at h1; cases h1
            | some q1 =>
              rw [hd1] at h1
              dsimp only at h1
              cases hd2 : checkedDivU128 m2 bav with
              | none => rw [hd2] at h2; cases h2
              | some q2 =>
                rw [hd2] at h2
                dsimp only at h2
                simp only [Except.ok.injEq, Prod.mk.injEq] at h1 h2
                rw [← h1.2.2.2, ← h2.2.2.2]
                rw [checkedDivU128_some hd1, checkedDivU128_some hd2,
                  checkedMulU128_some hm1, checkedMulU128_some hm2]
                exact Nat.div_le_div_right (Nat.mul_le_mul_right MARGIN_PRECISION ht)

/-- C7: with the Position Set and Market Table fixed, the margin ratio
computed by `calculate_margin_ratio` is monotonically non-decreasing in the
account's stored collateral: whenever both evaluations succeed, the lower
collateral never produces the higher margin ratio. -/
theorem margin_ratio_mono_in_collateral
    {u : User} {c1 c2 : Nat} {ups : UserPositions} {mkts : Markets}
    {tc1 tc2 b1 b2 mr1 mr2 : Nat} {w1 w2 : Int}
    (hc : c1 ≤ c2)
    (h1 : calculate_margin_ratio { u with collateral := c1 } ups mkts =
      .ok (tc1, w1, b1, mr1))
    (h2 : calculate_margin_ratio { u with collateral := c2 } ups mkts =
      .ok (tc2, w2, b2, mr2)) :
    mr1 ≤ mr2 := by
  unfold calculate_margin_ratio at h1 h2
  cases hl : marginLoop mkts ups.positions 0 0 with
  | error e => rw [hl] at h1; cases h1
  | ok pr =>
    obtain ⟨bav, upnl⟩ := pr
    rw [hl] at h1 h2
    dsimp only at h1 h2
    exact marginFromTotals_mono hc h1 h2

/-- C7 witness: the same account evaluated at collateral 500 and 1000
against one active long position; the ratios are 505000 and 1005000. -/
theorem margin_ratio_mono_in_collateral_witness :
    (500 : Nat) ≤ 1000 ∧
    calculate_margin_ratio ⟨1, 500, 42⟩ ⟨[⟨0, 10, 5, 100, 5⟩]⟩
        ⟨[⟨⟨9, 100, 200, 7, 10 ^ 10⟩⟩]⟩ = .ok (505, 5, 10, 505000) ∧
    calculate_margin_ratio ⟨1, 1000, 42⟩ ⟨[⟨0, 10, 5, 100, 5⟩]⟩
        ⟨[⟨⟨9, 100, 200, 7, 10 ^ 10⟩⟩]⟩ = .ok (1005, 5, 10, 1005000) ∧
    (505000 : Nat) ≤ 1005000 :=
  ⟨by decide, by decide, by decide,
    @margin_ratio_mono_in_collateral ⟨1, 0, 42⟩ 500 1000 ⟨[⟨0, 10, 5, 100, 5⟩]⟩
      ⟨[⟨⟨9, 100, 200, 7, 10 ^ 10⟩⟩]⟩ 505 1005 10 10 505000 1005000 5 5
      (by decide) (by decide) (by decide)⟩

/-- C3 (amended): when the aggregate notional is zero, the risk evaluator
returns the sentinel pair (maximum collateral, maximum margin ratio) without
any division (total success, never the division-unwrap panic), and — as long
as the venue's partial-margin threshold is below the sentinel maximum — the
account is not flagged for liquidation, whatever its collateral or P&L. -/
theorem zero_notional_sentinel
    {payerPk liqAcct statePk : Pubkey} {st : State} {mkts : Markets}
    {userPk : Pubkey} {user0 ua ua2 : User} {ups ups2 : UserPositions}
    {bh : Except NetErr Nat} {rf : Except NetErr User} {upnl : Int}
    (hsettle : settle_funding_payment ua ups mkts = .ok (ua2, ups2))
    (hloop : marginLoop mkts ups2.positions 0 0 = .ok (0, upnl))
    (hthr : st.margin_ratio_partial < U128_MAX) :
    calculate_margin_ratio ua2 ups2 mkts = .ok (U128_MAX, upnl, 0, U128_MAX) ∧
    (cycleTask payerPk liqAcct statePk st mkts userPk user0 (.ok ups) (.ok ua)
      bh rf).liquidationTriggered = false := by
  have hm : calculate_margin_ratio ua2 ups2 mkts = .ok (U128_MAX, upnl, 0, U128_MAX) := by
    unfold calculate_margin_ratio
    rw [hloop]
    rfl
  refine ⟨hm, ?_⟩
  unfold cycleTask
  dsimp only
  rw [hsettle]
  dsimp only
  rw [hm]
  dsimp only
  rw [if_neg (by omega : ¬ U128_MAX ≤ st.margin_ratio_partial)]

/-- C3 witness: a flat account under an ordinary threshold (625): the
sentinel pair comes back and no liquidation is triggered. -/
theorem zero_notional_sentinel_witness :
    settle_funding_payment ⟨1, 1000, 42⟩ ⟨[⟨0, 0, 5, 100, 5⟩]⟩
        ⟨[⟨⟨9, 100, 200, 7, 0⟩⟩]⟩ = .ok (⟨1, 1000, 42⟩, ⟨[⟨0, 0, 5, 100, 5⟩]⟩) ∧
    calculate_margin_ratio ⟨1, 1000, 42⟩ ⟨[⟨0, 0, 5, 100, 5⟩]⟩ ⟨[⟨⟨9, 100, 200, 7, 0⟩⟩]⟩ =
      .ok (U128_MAX, 0, 0, U128_MAX) ∧
    (cycleTask 1 2 3 ⟨625, 11, 12, 13, 14, 15, 16, 17, 18⟩ ⟨[⟨⟨9, 100, 200, 7, 0⟩⟩]⟩ 4
        ⟨1, 1000, 42⟩ (.ok ⟨[⟨0, 0, 5, 100, 5⟩]⟩) (.ok ⟨1, 1000, 42⟩) (.ok 0)
        (.ok ⟨1, 1000, 42⟩)).liquidationTriggered = false :=
  ⟨by decide,
    (@zero_notional_sentinel 1 2 3 ⟨625, 11, 12, 13, 14, 15, 16, 17, 18⟩
      ⟨[⟨⟨9, 100, 200, 7, 0⟩⟩]⟩ 4 ⟨1, 1000, 42⟩ ⟨1, 1000, 42⟩ ⟨1, 1000, 42⟩
      ⟨[⟨0, 0, 5, 100, 5⟩]⟩ ⟨[⟨0, 0, 5, 100, 5⟩]⟩ (.ok 0) (.ok ⟨1, 1000, 42⟩) 0
      (by decide) (by decide) (by decide)).1,
    (@zero_notional_sentinel 1 2 3 ⟨625, 11, 12, 13, 14, 15, 16, 17, 18⟩
      ⟨[⟨⟨9, 100, 200, 7, 0⟩⟩]⟩ 4 ⟨1, 1000, 42⟩ ⟨1, 1000, 42⟩ ⟨1, 1000, 42⟩
      ⟨[⟨0, 0, 5, 100, 5⟩]⟩ ⟨[⟨0, 0, 5, 100, 5⟩]⟩ (.ok 0) (.ok ⟨1, 1000, 42⟩) 0
      (by decide) (by decide) (by decide)).2⟩

/-- C3 counterexample: with the venue's partial-margin threshold equal to
the sentinel maximum (a representable `u128` value), a zero-exposure account
evaluates to the sentinel ratio and IS flagged for liquidation by the
inclusive comparison — refuting "never flagged for liquidation regardless of
the sign of its collateral or unrealized P&L" as an unconditional
statement. -/
theorem zero_notional_flagged_at_max_threshold :
    calculate_margin_ratio ⟨1, 1000, 42⟩ ⟨[⟨0, 0, 5, 100, 5⟩]⟩ ⟨[⟨⟨9, 100, 200, 7, 0⟩⟩]⟩ =
      .ok (U128_MAX, 0, 0, U128_MAX) ∧
    (cycleTask 1 2 3 ⟨U128_MAX, 11, 12, 13, 14, 15, 16, 17, 18⟩ ⟨[⟨⟨9, 100, 200, 7, 0⟩⟩]⟩ 4
        ⟨1, 1000, 42⟩ (.ok ⟨[⟨0, 0, 5, 100, 5⟩]⟩) (.ok ⟨1, 1000, 42⟩) (.ok 0)
        (.ok ⟨1, 1000, 42⟩)).liquidationTriggered = true :=
  ⟨by decide, by decide⟩

/-- C4: the Liquidation Executor branch is entered exactly when the computed
margin ratio is at most the venue's partial-margin threshold, and in
particular a ratio exactly equal to the threshold does trigger liquidation
(the comparison is the inclusive `≤`). -/
theorem liquidation_trigger_iff_le_threshold
    {payerPk liqAcct statePk : Pubkey} {st : State} {mkts : Markets}
    {userPk : Pubkey} {user0 ua ua2 : User} {ups ups2 : UserPositions}
    {bh : Except NetErr Nat} {rf : Except NetErr User}
    {tc bav mr : Nat} {upnl : Int}
    (hsettle : settle_funding_payment ua ups mkts = .ok (ua2, ups2))
    (hmargin : calculate_margin_ratio ua2 ups2 mkts = .ok (tc, upnl, bav, mr)) :
    ((cycleTask payerPk liqAcct statePk st mkts userPk user0 (.ok ups) (.ok ua)
        bh rf).liquidationTriggered = true ↔ mr ≤ st.margin_ratio_partial) ∧
    (mr = st.margin_ratio_partial →
      (cycleTask payerPk liqAcct statePk st mkts userPk user0 (.ok ups) (.ok ua)
        bh rf).liquidationTriggered = true) := by
  unfold cycleTask
  dsimp only
  rw [hsettle]
  dsimp only
  rw [hmargin]
  dsimp only
  by_cases hle : mr ≤ st.margin_ratio_partial
  · rw [if_pos hle]
    cases buildLiquidationAccounts statePk payerPk liqAcct userPk st ua2 ups2 mkts with
    | error e => exact ⟨iff_of_true rfl hle, fun _ => rfl⟩
    | ok accts =>
      cases bh with
      | error e => exact ⟨iff_of_true rfl hle, fun _ => rfl⟩
      | ok x =>
        cases rf with
        | error e => exact ⟨iff_of_true rfl hle, fun _ => rfl⟩
        | ok ua3 => exact ⟨iff_of_true rfl hle, fun _ => rfl⟩
  · rw [if_neg hle]
    exact ⟨by simp [hle], fun heq => absurd (Nat.le_of_eq heq) hle⟩

/-- C4 witness: an account whose ratio lands exactly on the threshold
(505000 = 505000): liquidation is triggered. -/
theorem liquidation_trigger_iff_le_threshold_witness :
    settle_funding_payment ⟨1, 500, 42⟩ ⟨[⟨0, 10, 5, 100, 5⟩]⟩
        ⟨[⟨⟨9, 100, 200, 7, 10 ^ 10⟩⟩]⟩ =
      .ok (⟨1, 500, 42⟩, ⟨[⟨0, 10, 5, 100, 5⟩]⟩) ∧
    calculate_margin_ratio ⟨1, 500, 42⟩ ⟨[⟨0, 10, 5, 100, 5⟩]⟩
        ⟨[⟨⟨9, 100, 200, 7, 10 ^ 10⟩⟩]⟩ = .ok (505, 5, 10, 505000) ∧
    (cycleTask 1 2 3 ⟨505000, 11, 12, 13, 14, 15, 16, 17, 18⟩
        ⟨[⟨⟨9, 100, 200, 7, 10 ^ 10⟩⟩]⟩ 4 ⟨1, 500, 42⟩
        (.ok ⟨[⟨0, 10, 5, 100, 5⟩]⟩) (.ok ⟨1, 500, 42⟩) (.ok 0)
        (.ok ⟨1, 500, 42⟩)).liquidationTriggered = true :=
  ⟨by decide, by decide,
    (@liquidation_trigger_iff_le_threshold 1 2 3
      ⟨505000, 11, 12, 13, 14, 15, 16, 17, 18⟩ ⟨[⟨⟨9, 100, 200, 7, 10 ^ 10⟩⟩]⟩ 4
      ⟨1, 500, 42⟩ ⟨1, 500, 42⟩ ⟨1, 500, 42⟩ ⟨[⟨0, 10, 5, 100, 5⟩]⟩
      ⟨[⟨0, 10, 5, 100, 5⟩]⟩ (.ok 0) (.ok ⟨1, 500, 42⟩) 505 10 505000 5
      (by decide) (by decide)).2 (by decide)⟩

/-- C1 (amended): an arithmetic-overflow error in funding settlement or in
the margin evaluation is signalled as a recoverable per-account error value
by the evaluation functions, but the cycle task `.unwrap()`s their results,
so the task panics — terminating the process — instead of aborting only that
account's evaluation for the cycle. -/
theorem arith_error_unwrap_panics
    {payerPk liqAcct statePk : Pubkey} {st : State} {mkts : Markets}
    {userPk : Pubkey} {user0 ua : User} {ups : UserPositions}
    {bh : Except NetErr Nat} {rf : Except NetErr User} :
    (∀ e : RErr, settle_funding_payment ua ups mkts = .error e →
      (cycleTask payerPk liqAcct statePk st mkts userPk user0 (.ok ups) (.ok ua)
        bh rf).outcome = .panicked) ∧
    (∀ (ua2 : User) (ups2 : UserPositions) (e : RErr),
      settle_funding_payment ua ups mkts = .ok (ua2, ups2) →
      calculate_margin_ratio ua2 ups2 mkts = .error e →
      (cycleTask payerPk liqAcct statePk st mkts userPk user0 (.ok ups) (.ok ua)
        bh rf).outcome = .panicked) := by
  constructor
  · intro e he
    unfold cycleTask
    dsimp only
    rw [he]
  · intro ua2 ups2 e hs hm
    unfold cycleTask
    dsimp only
    rw [hs]
    dsimp only
    rw [hm]

/-- C1 witness: a short position whose funding-rate delta underflows i128:
settlement reports the recoverable overflow error and the unwrapping task
panics. -/
theorem arith_error_unwrap_panics_witness :
    settle_funding_payment ⟨1, 1000, 42⟩ ⟨[⟨0, -1, 0, I128_MAX, 0⟩]⟩
        ⟨[⟨⟨9, 100, I128_MIN, 7, 0⟩⟩]⟩ = .error .mathOverflow ∧
    (cycleTask 1 2 3 ⟨625, 11, 12, 13, 14, 15, 16, 17, 18⟩
        ⟨[⟨⟨9, 100, I128_MIN, 7, 0⟩⟩]⟩ 4 ⟨1, 1000, 42⟩
        (.ok ⟨[⟨0, -1, 0, I128_MAX, 0⟩]⟩) (.ok ⟨1, 1000, 42⟩) (.ok 0)
        (.ok ⟨1, 1000, 42⟩)).outcome = .panicked :=
  ⟨by decide,
    (@arith_error_unwrap_panics 1 2 3 ⟨625, 11, 12, 13, 14, 15, 16, 17, 18⟩
      ⟨[⟨⟨9, 100, I128_MIN, 7, 0⟩⟩]⟩ 4 ⟨1, 1000, 42⟩ ⟨1, 1000, 42⟩
      ⟨[⟨0, -1, 0, I128_MAX, 0⟩]⟩ (.ok 0) (.ok ⟨1, 1000, 42⟩)).1
      .mathOverflow (by decide)⟩

/-- C1 counterexample: a long position whose funding-rate delta overflows
i128: `settle_funding_payment` returns the recoverable overflow error, yet
the per-account cycle task panics — the process terminates — refuting the
claim that such an error aborts only that account's evaluation and never
terminates the process. -/
theorem funding_overflow_terminates_process :
    settle_funding_payment ⟨1, 1000, 42⟩ ⟨[⟨0, 1, 0, I128_MIN, 0⟩]⟩
        ⟨[⟨⟨9, I128_MAX, 200, 7, 0⟩⟩]⟩ = .error .mathOverflow ∧
    (cycleTask 1 2 3 ⟨625, 11, 12, 13, 14, 15, 16, 17, 18⟩
        ⟨[⟨⟨9, I128_MAX, 200, 7, 0⟩⟩]⟩ 4 ⟨1, 1000, 42⟩
        (.ok ⟨[⟨0, 1, 0, I128_MIN, 0⟩]⟩) (.ok ⟨1, 1000, 42⟩) (.ok 0)
        (.ok ⟨1, 1000, 42⟩)).outcome = .panicked :=
  ⟨by decide, by decide⟩

/-- C2 (amended): a failure of either of the two concurrent per-account
snapshot reads is recoverable: the task logs the failure and returns early,
skipping exactly that account for the cycle — its Account Registry entry is
left unchanged and no liquidation is attempted. -/
theorem snapshot_read_failure_skips
    {payerPk liqAcct statePk : Pubkey} {st : State} {mkts : Markets}
    {userPk : Pubkey} {user0 : User}
    {positionsRead : Except NetErr UserPositions} {accountRead : Except NetErr User}
    {bh : Except NetErr Nat} {rf : Except NetErr User}
    (h : (∃ e, positionsRead = .error e) ∨ ∃ e, accountRead = .error e) :
    cycleTask payerPk liqAcct statePk st mkts userPk user0 positionsRead accountRead
      bh rf = ⟨.skipped, user0, true, false, none⟩ := by
  rcases h with ⟨e, he⟩ | ⟨e, he⟩
  · rw [he]
    cases accountRead <;> rfl
  · rw [he]
    cases positionsRead <;> rfl

/-- C2 witness: the positions read fails: the task skips, leaves the
registry entry as it was, logs, and triggers nothing. -/
theorem snapshot_read_failure_skips_witness :
    cycleTask 1 2 3 ⟨625, 11, 12, 13, 14, 15, 16, 17, 18⟩ ⟨[]⟩ 4 ⟨1, 1000, 42⟩
        (.error .failed) (.ok ⟨1, 1000, 42⟩) (.ok 0) (.ok ⟨1, 1000, 42⟩) =
      ⟨.skipped, ⟨1, 1000, 42⟩, true, false, none⟩ :=
  snapshot_read_failure_skips (Or.inl ⟨.failed, rfl⟩)

/-- C2 counterexample: two cycle network reads outside the per-account
snapshot pair are `.unwrap()`ed: a failed Market Table refresh at the top of
the cycle panics, and a failed recent-blockhash fetch inside the liquidation
branch panics too — the process terminates, refuting "no network read/write
failure terminates the process". -/
theorem cycle_read_failure_panics :
    refreshMarkets (.error .failed) = .panicked ∧
    (cycleTask 1 2 3 ⟨505000, 11, 12, 13, 14, 15, 16, 17, 18⟩
        ⟨[⟨⟨9, 100, 200, 7, 10 ^ 10⟩⟩]⟩ 4 ⟨1, 500, 42⟩
        (.ok ⟨[⟨0, 10, 5, 100, 5⟩]⟩) (.ok ⟨1, 500, 42⟩) (.error .failed)
        (.ok ⟨1, 500, 42⟩)).outcome = .panicked :=
  ⟨rfl, by decide⟩

/-- C6: the liquidation instruction's account list is the fixed-order
14-entry head (venue parameters, signing payer, the submitter's own venue
account, the target, collateral vault and authority, insurance vault and
authority, token program, market table, the target's position set, and the
trade/liquidation/funding-payment history accounts) followed by exactly one
oracle reference per active position, in position order; flat positions
contribute nothing.  Under the venue invariant that a market occurs at most
once among the active positions (the `Nodup` hypothesis), that is exactly
one oracle per distinct market with nonzero exposure. -/
theorem liquidation_accounts_structure
    {statePk payerPk liqAcct userPk : Pubkey} {st : State} {ua : User}
    {ups : UserPositions} {mkts : Markets}
    (hb : ∀ p ∈ ups.positions,
      p.base_asset_amount ≠ 0 → p.market_index < mkts.markets.length)
    (hdis : ((ups.positions.filter fun p => p.base_asset_amount ≠ 0).map
        fun p => p.market_index).Nodup) :
    ∃ os, buildLiquidationAccounts statePk payerPk liqAcct userPk st ua ups mkts =
        .ok (fixedAccounts statePk payerPk liqAcct userPk st ua ++ os) ∧
      List.Forall₂ (fun p a => ∃ market, mkts.markets.get? p.market_index = some market ∧
          a = AccountMeta.new_readonly market.amm.oracle false)
        (ups.positions.filter fun p => p.base_asset_amount ≠ 0) os ∧
      ((ups.positions.filter fun p => p.base_asset_amount ≠ 0).map
          fun p => p.market_index).Nodup := by
  obtain ⟨os, hos, hf⟩ := oracleMetas_ok mkts ups.positions hb
  refine ⟨os, ?_, hf, hdis⟩
  unfold buildLiquidationAccounts
  rw [hos]

/-- C6 witness: two active positions in markets 0 and 1 with a flat one in
between: the list is the fixed head plus the two oracles in position
order. -/
theorem liquidation_accounts_structure_witness :
    (∀ p ∈ UserPositions.positions
        ⟨[⟨0, 10, 5, 100, 5⟩, ⟨1, 0, 0, 0, 0⟩, ⟨1, -3, 2, 50, 5⟩]⟩,
      p.base_asset_amount ≠ 0 →
        p.market_index < (Markets.markets
          ⟨[⟨⟨21, 100, 200, 7, 0⟩⟩, ⟨⟨22, 1, 2, 3, 0⟩⟩]⟩).length) ∧
    ∃ os, buildLiquidationAccounts 3 1 2 4 ⟨625, 11, 12, 13, 14, 15, 16, 17, 18⟩
        ⟨1, 500, 42⟩ ⟨[⟨0, 10, 5, 100, 5⟩, ⟨1, 0, 0, 0, 0⟩, ⟨1, -3, 2, 50, 5⟩]⟩
        ⟨[⟨⟨21, 100, 200, 7, 0⟩⟩, ⟨⟨22, 1, 2, 3, 0⟩⟩]⟩ =
        .ok (fixedAccounts 3 1 2 4 ⟨625, 11, 12, 13, 14, 15, 16, 17, 18⟩ ⟨1, 500, 42⟩ ++ os) ∧
      List.Forall₂ (fun p a => ∃ market,
          (Markets.markets ⟨[⟨⟨21, 100, 200, 7, 0⟩⟩, ⟨⟨22, 1, 2, 3, 0⟩⟩]⟩).get?
            p.market_index = some market ∧
          a = AccountMeta.new_readonly market.amm.oracle false)
        ((UserPositions.positions
            ⟨[⟨0, 10, 5, 100, 5⟩, ⟨1, 0, 0, 0, 0⟩, ⟨1, -3, 2, 50, 5⟩]⟩).filter
          fun p => p.base_asset_amount ≠ 0) os ∧
      (((UserPositions.positions
            ⟨[⟨0, 10, 5, 100, 5⟩, ⟨1, 0, 0, 0, 0⟩, ⟨1, -3, 2, 50, 5⟩]⟩).filter
          fun p => p.base_asset_amount ≠ 0).map fun p => p.market_index).Nodup :=
  ⟨by decide,
    @liquidation_accounts_structure 3 1 2 4 ⟨625, 11, 12, 13, 14, 15, 16, 17, 18⟩
      ⟨1, 500, 42⟩ ⟨[⟨0, 10, 5, 100, 5⟩, ⟨1, 0, 0, 0, 0⟩, ⟨1, -3, 2, 50, 5⟩]⟩
      ⟨[⟨⟨21, 100, 200, 7, 0⟩⟩, ⟨⟨22, 1, 2, 3, 0⟩⟩]⟩ (by decide) (by decide)⟩

/-- C8: bootstrap classification follows the fixed trial order principal →
market table → parameters, stopping at the first success; an account whose
bytes decode as none of the three shapes is classified dropped, and a
dropped account contributes nothing to the single-pass bootstrap fold (it is
never retried). -/
theorem bootstrap_classification_trial_order (a : RawAccount) :
    (∀ u, a.decodeUser = some u → classify a = .principal u) ∧
    (∀ m, a.decodeUser = none → a.decodeMarkets = some m →
      classify a = .marketTable m) ∧
    (∀ s, a.decodeUser = none → a.decodeMarkets = none → a.decodeState = some s →
      classify a = .parameters s) ∧
    (a.decodeUser = none → a.decodeMarkets = none → a.decodeState = none →
      classify a = .dropped) ∧
    (∀ (payerPk : Pubkey) (s : BootstrapState) (rest : List RawAccount),
      classify a = .dropped →
      bootstrapFold payerPk s (a :: rest) = bootstrapFold payerPk s rest) := by
  refine ⟨?_, ?_, ?_, ?_, ?_⟩
  · intro u hu
    unfold classify
    rw [hu]
  · intro m hu hm
    unfold classify
    rw [hu, hm]
  · intro s hu hm hs
    unfold classify
    rw [hu, hm, hs]
  · intro hu hm hs
    unfold classify
    rw [hu, hm, hs]
  · intro payerPk s rest hd
    show bootstrapFold payerPk (bootstrapStep payerPk s a) rest =
      bootstrapFold payerPk s rest
    have hstep : bootstrapStep payerPk s a = s := by
      unfold bootstrapStep
      rw [hd]
    rw [hstep]

/-- C8 witness: an account decoding as a principal is classified principal;
an account decoding as nothing is dropped and leaves the fold unchanged. -/
theorem bootstrap_classification_trial_order_witness :
    classify ⟨9, some ⟨1, 2, 3⟩, none, none⟩ = .principal ⟨1, 2, 3⟩ ∧
    classify ⟨9, none, none, none⟩ = .dropped ∧
    bootstrapFold 1 ⟨[], (0, ⟨[]⟩), (0, ⟨0, 0, 0, 0, 0, 0, 0, 0, 0⟩), 0⟩
        [⟨9, none, none, none⟩] =
      bootstrapFold 1 ⟨[], (0, ⟨[]⟩), (0, ⟨0, 0, 0, 0, 0, 0, 0, 0, 0⟩), 0⟩ [] :=
  ⟨(bootstrap_classification_trial_order ⟨9, some ⟨1, 2, 3⟩, none, none⟩).1 ⟨1, 2, 3⟩ rfl,
    (bootstrap_classification_trial_order ⟨9, none, none, none⟩).2.2.2.1 rfl rfl rfl,
    (bootstrap_classification_trial_order ⟨9, none, none, none⟩).2.2.2.2 1
      ⟨[], (0, ⟨[]⟩), (0, ⟨0, 0, 0, 0, 0, 0, 0, 0, 0⟩), 0⟩ [] rfl⟩

/-- C10 counterexample: an active (nonzero-exposure) position whose stored
rate already equals the market's side rate settles successfully but keeps
its stale timestamp 5, while the market's last funding timestamp is 7 — so
a successful settlement does not leave every active position with the
market's last funding timestamp, contrary to the claim. -/
theorem settled_position_ts_not_advanced :
    settle_funding_payment ⟨1, 1000, 42⟩ ⟨[⟨0, 10, 5, 100, 5⟩]⟩
        ⟨[⟨⟨1, 100, 200, 7, 0⟩⟩]⟩ =
      .ok (⟨1, 1000, 42⟩, ⟨[⟨0, 10, 5, 100, 5⟩]⟩) ∧
    MarketPosition.base_asset_amount ⟨0, 10, 5, 100, 5⟩ ≠ 0 ∧
    MarketPosition.last_funding_rate_ts ⟨0, 10, 5, 100, 5⟩ ≠
      AMM.last_funding_rate_ts ⟨1, 100, 200, 7, 0⟩ :=
  ⟨by decide, by decide, by decide⟩

end Drift
